import Mathlib

/-!
Shallow embedding of `nanodet/util/logger.py`: the running statistics
(`MovingAverage`, `AverageMeter`), the rank-gated logger sinks
(`NanoDetLightningLogger`, `NanoDetWandbLogger`), and the wandb
eval-table pipeline (`_log_eval_sample`, `_log_eval_table`).

Python floats are modelled as rationals (`ℚ`), Python lists as `List`,
Python dicts as insertion-ordered association lists, and Python calls
that can raise as `Option`-valued functions (`none` = an exception
propagates).
-/

/-! ### MovingAverage (logger.py lines 77–92) -/

/-- Result of `np.mean` on a list: NaN on the empty list (numpy emits a
RuntimeWarning and returns `nan`; it does not raise), otherwise the
arithmetic mean. -/
inductive MeanResult where
  | nan : MeanResult
  | val : ℚ → MeanResult
deriving DecidableEq

/-- Python `np.mean(queue)` — external collaborator, modelled from numpy's
documented behaviour: the mean of an empty slice is NaN, not an error. -/
def npMean (l : List ℚ) : MeanResult :=
  if l.length = 0 then MeanResult.nan else MeanResult.val (l.sum / l.length)

/-- State of `MovingAverage`: `self.window_size` and `self.queue`. -/
structure MovingAverage where
  window_size : ℕ
  queue : List ℚ
deriving DecidableEq

namespace MovingAverage

/-- Python `reset(self)`: `self.queue = []`. -/
def reset (m : MovingAverage) : MovingAverage :=
  { m with queue := [] }

/-- Python `push(self, val)`: append, then `pop(0)` if the length exceeds the
window size. -/
def push (m : MovingAverage) (v : ℚ) : MovingAverage :=
  let q := m.queue ++ [v]
  if q.length > m.window_size then { m with queue := q.drop 1 }
  else { m with queue := q }

/-- Python `avg(self)`: `np.mean(self.queue)`. -/
def avg (m : MovingAverage) : MeanResult :=
  npMean m.queue

/-- Fold a sequence of `push` calls. -/
def pushAll (m : MovingAverage) (vs : List ℚ) : MovingAverage :=
  vs.foldl push m

end MovingAverage

/-- Python `MovingAverage.__init__(val, window_size)`: `reset()` then `push(val)`. -/
def mkMovingAverage (v : ℚ) (window_size : ℕ) : MovingAverage :=
  MovingAverage.push (MovingAverage.reset ⟨window_size, []⟩) v

/-! ### AverageMeter (logger.py lines 95–113) -/

/-- State of `AverageMeter`: `val`, `avg`, `sum`, `count`. -/
structure AverageMeter where
  val : ℚ
  avg : ℚ
  sum : ℚ
  count : ℤ
deriving DecidableEq

namespace AverageMeter

/-- Python `reset(self)`: zero all four fields. -/
def reset : AverageMeter :=
  ⟨0, 0, 0, 0⟩

/-- Checked division: Python `/` raises `ZeroDivisionError` on a zero
divisor. -/
def pydiv (a : ℚ) (b : ℤ) : Option ℚ :=
  if b = 0 then none else some (a / b)

/-- Python `update(self, val, n=1)`: assign `val`, accumulate `sum` and `count`,
and recompute `avg = sum / count` only when `count > 0`. -/
def update (m : AverageMeter) (v : ℚ) (n : ℤ) : Option AverageMeter :=
  let sum := m.sum + v * n
  let count := m.count + n
  if 0 < count then
    match pydiv sum count with
    | none => none
    | some a => some ⟨v, a, sum, count⟩
  else
    some ⟨v, m.avg, sum, count⟩

/-- Fold a sequence of `update(vᵢ, nᵢ)` calls. -/
def runUpdates (m : AverageMeter) (us : List (ℚ × ℤ)) : Option AverageMeter :=
  us.foldlM (fun a u => update a u.1 u.2) m

end AverageMeter

/-- Python `AverageMeter.__init__(val)`: `reset()` then `update(val)` (with the
default multiplicity `n = 1`). -/
def mkAverageMeter (v : ℚ) : Option AverageMeter :=
  AverageMeter.update AverageMeter.reset v 1

/-! ### The eval-sample builder (`NanoDetWandbLogger._log_eval_sample`,
logger.py lines 264–301) -/

/-- One detection: `(*xyxy, conf)` = `(x1, y1, x2, y2, confidence)`. -/
structure Det where
  x1 : ℚ
  y1 : ℚ
  x2 : ℚ
  y2 : ℚ
  conf : ℚ
deriving DecidableEq

/-- Zero-pad a natural number below 1000 to three digits. -/
def pad3 (n : ℕ) : String :=
  if n < 10 then "00" ++ toString n
  else if n < 100 then "0" ++ toString n
  else toString n

/-- Python's `f"{conf:.3f}"` decimal rendering of a rational to three
places (ties rounded up). -/
def fmt3 (q : ℚ) : String :=
  let sign := if q < 0 then "-" else ""
  let n : ℕ := (|q| * 1000 + 1 / 2).floor.toNat
  sign ++ toString (n / 1000) ++ "." ++ pad3 (n % 1000)

/-- One entry of `box_data`: the dict built for a qualifying detection. -/
structure BoxData where
  minX : ℚ
  minY : ℚ
  maxX : ℚ
  maxY : ℚ
  classId : ℕ
  boxCaption : String
  classScore : ℚ
  domain : String
deriving DecidableEq

/-- The dict appended to `box_data` for class `cls` and detection `d`. -/
def mkBox (classes : List String) (cls : ℕ) (d : Det) : BoxData :=
  { minX := d.x1, minY := d.y1, maxX := d.x2, maxY := d.y2,
    classId := cls,
    boxCaption := classes.getD cls "" ++ " " ++ fmt3 d.conf,
    classScore := d.conf,
    domain := "pixel" }

/-- The loop state of `_log_eval_sample`: `box_data`,
`avg_conf_per_class` and `pred_class_count`. -/
structure SampleAcc where
  boxData : List BoxData
  avgConf : List ℚ
  classCount : List (ℕ × ℕ)
deriving DecidableEq

/-- Python dict update `m[c] += 1` / `m[c] = 1`, preserving insertion
order: bump the entry for `c` if present, else append `(c, 1)`. -/
def countIncr (m : List (ℕ × ℕ)) (c : ℕ) : List (ℕ × ℕ) :=
  match m with
  | [] => [(c, 1)]
  | p :: rest => if p.1 = c then (p.1, p.2 + 1) :: rest else p :: countIncr rest c

/-- Python dict read `m[c]` made total: value of the first entry for
`c`, or `0` when absent. -/
def countGet (m : List (ℕ × ℕ)) (c : ℕ) : ℕ :=
  match m with
  | [] => 0
  | p :: rest => if p.1 = c then p.2 else countGet rest c

/-- Keys of an association list, in order. -/
def keysOf (m : List (ℕ × ℕ)) : List ℕ :=
  m.map Prod.fst

/-- The body of the inner detection loop: skip detections below the
`0.25` confidence floor; for a qualifying detection append its box,
add its confidence into `avg_conf_per_class[cls]` and bump
`pred_class_count[cls]`. An out-of-range `cls` on a qualifying
detection is Python's `IndexError` (`classes[cls]` /
`avg_conf_per_class[cls]`), modelled as `none`. -/
def procDet (classes : List String) (cls : ℕ) (acc : SampleAcc) (d : Det) :
    Option SampleAcc :=
  if (1 / 4 : ℚ) ≤ d.conf then
    if cls < classes.length then
      some ⟨acc.boxData ++ [mkBox classes cls d],
            acc.avgConf.set cls (acc.avgConf.getD cls 0 + d.conf),
            countIncr acc.classCount cls⟩
    else none
  else some acc

/-- The inner loop `for *xyxy, conf in preds[cls]`. -/
def procDets (classes : List String) (cls : ℕ) (acc : SampleAcc)
    (ds : List Det) : Option SampleAcc :=
  ds.foldlM (procDet classes cls) acc

/-- The outer loop `for cls in preds` (a dict iterates its key–value
pairs in insertion order). -/
def procPreds (classes : List String) (acc : SampleAcc)
    (preds : List (ℕ × List Det)) : Option SampleAcc :=
  preds.foldlM (fun a p => procDets classes p.1 a p.2) acc

/-- The loop `for pred_class in pred_class_count.keys(): avg[c] = avg[c]
/ count[c]`. -/
def normalizeAvg (avgConf : List ℚ) (classCount : List (ℕ × ℕ)) : List ℚ :=
  classCount.foldl (fun av p => av.set p.1 (av.getD p.1 0 / (p.2 : ℚ))) avgConf

/-- The `wandb.Image` value: file path, `boxes` payload and the class
set. -/
structure WandbImage where
  path : String
  boxData : List BoxData
  classLabels : List (ℕ × String)
  imgClasses : List (ℕ × String)
deriving DecidableEq

/-- One cell of the returned row `[sample_id, wandb_img,
*avg_conf_per_class]`. -/
inductive Cell where
  | sid : ℕ → Cell
  | image : WandbImage → Cell
  | conf : ℚ → Cell
deriving DecidableEq

namespace NanoDetWandbLogger

/-- Python `_log_eval_sample(sample_id, sample_path, preds, classes)`:
process every detection of every class, average the accumulated
confidences per predicted class, and return the row
`[sample_id, wandb_img, *avg_conf_per_class]`. -/
def log_eval_sample (sample_id : ℕ) (sample_path : String)
    (preds : List (ℕ × List Det)) (classes : List String) :
    Option (List Cell) := do
  let acc ← procPreds classes ⟨[], List.replicate classes.length 0, []⟩ preds
  let avg := normalizeAvg acc.avgConf acc.classCount
  let img : WandbImage := ⟨sample_path, acc.boxData, classes.enum, classes.enum⟩
  pure (Cell.sid sample_id :: Cell.image img :: avg.map Cell.conf)

end NanoDetWandbLogger

/-! Specification-side observations of the eval-sample builder. -/

/-- All `(class, detection)` pairs of a prediction mapping, in loop
order. -/
def sampleEvents (preds : List (ℕ × List Det)) : List (ℕ × Det) :=
  preds.flatMap (fun p => p.2.map (fun d => (p.1, d)))

/-- The qualifying events: confidence at least `0.25`. -/
def qualEvents (es : List (ℕ × Det)) : List (ℕ × Det) :=
  es.filter (fun e => decide ((1 / 4 : ℚ) ≤ e.2.conf))

/-- Confidences of the qualifying events of class `c`, in order. -/
def classConfs (c : ℕ) (es : List (ℕ × Det)) : List ℚ :=
  ((qualEvents es).filter (fun e => e.1 = c)).map (fun e => e.2.conf)

/-- The specified per-class average confidence: mean of the qualifying
confidences when there are any, else `0`. -/
def specAvg (preds : List (ℕ × List Det)) (c : ℕ) : ℚ :=
  let qs := classConfs c (sampleEvents preds)
  if qs.length = 0 then 0 else qs.sum / (qs.length : ℚ)

/-- The sample id cell of a row. -/
def rowSid (row : List Cell) : Option ℕ :=
  match row with
  | Cell.sid n :: _ => some n
  | _ => none

/-- The per-class average cells of a row, in order. -/
def rowConfs (row : List Cell) : List ℚ :=
  row.filterMap (fun c => match c with | Cell.conf q => some q | _ => none)

/-- The `(class_id, class_score)` pairs of the boxes of a row's image
cell, in order. -/
def rowBoxes (row : List Cell) : List (ℕ × ℚ) :=
  row.flatMap (fun c =>
    match c with
    | Cell.image i => i.boxData.map (fun b => (b.classId, b.classScore))
    | _ => [])

/-! ### Helper lemmas on lists and the counting map -/

lemma getD_set_self (l : List ℚ) (i : ℕ) (a : ℚ) (h : i < l.length) :
    (l.set i a).getD i 0 = a := by
  induction l generalizing i with
  | nil => simp at h
  | cons x xs ih =>
      cases i with
      | zero => simp [List.set, List.getD]
      | succ j =>
          simp only [List.set, List.getD, List.getElem?_cons_succ]
          exact ih j (by simpa using h)

lemma getD_set_ne (l : List ℚ) (i j : ℕ) (a : ℚ) (h : i ≠ j) :
    (l.set i a).getD j 0 = l.getD j 0 := by
  induction l generalizing i j with
  | nil => simp [List.set]
  | cons x xs ih =>
      cases i with
      | zero =>
          cases j with
          | zero => exact absurd rfl h
          | succ k => simp [List.set, List.getD]
      | succ i' =>
          cases j with
          | zero => simp [List.set, List.getD]
          | succ k =>
              simp only [List.set, List.getD, List.getElem?_cons_succ]
              exact ih i' k (fun hh => h (by simp [hh]))

lemma getD_replicate_zero (n c : ℕ) :
    (List.replicate n (0 : ℚ)).getD c 0 = 0 := by
  induction n generalizing c with
  | zero => simp [List.getD]
  | succ k ih =>
      cases c with
      | zero => simp [List.replicate, List.getD]
      | succ c' =>
          simp only [List.replicate, List.getD, List.getElem?_cons_succ]
          exact ih c'

lemma getD_eq_getElem_q (l : List ℚ) (i : ℕ) (h : i < l.length) :
    l.getD i 0 = l[i] := by
  simp [List.getD, List.getElem?_eq_getElem h]

@[simp] lemma keysOf_nil : keysOf [] = [] := rfl

@[simp] lemma keysOf_cons (p : ℕ × ℕ) (m : List (ℕ × ℕ)) :
    keysOf (p :: m) = p.1 :: keysOf m := rfl

lemma countGet_countIncr (m : List (ℕ × ℕ)) (c x : ℕ) :
    countGet (countIncr m c) x = countGet m x + (if x = c then 1 else 0) := by
  induction m with
  | nil =>
      by_cases hx : x = c
      · subst hx; simp [countIncr, countGet]
      · have hcx : ¬ c = x := fun h => hx h.symm
        simp [countIncr, countGet, hx, hcx]
  | cons p rest ih =>
      obtain ⟨k, v⟩ := p
      by_cases hk : k = c
      · subst hk
        by_cases hx : k = x
        · subst hx
          simp [countIncr, countGet]
        · have hxk : ¬ x = k := fun h => hx h.symm
          simp [countIncr, countGet, hx, hxk]
      · by_cases hx : k = x
        · subst hx
          simp [countIncr, countGet, hk]
        · simp [countIncr, countGet, hk, hx, ih]

lemma keysOf_countIncr (m : List (ℕ × ℕ)) (c : ℕ) :
    keysOf (countIncr m c) =
      if c ∈ keysOf m then keysOf m else keysOf m ++ [c] := by
  induction m with
  | nil => simp [countIncr]
  | cons p rest ih =>
      obtain ⟨k, v⟩ := p
      by_cases hk : k = c
      · subst hk
        simp [countIncr]
      · by_cases hmem : c ∈ keysOf rest
        · simp [countIncr, hk, Ne.symm hk, hmem, ih]
        · simp [countIncr, hk, Ne.symm hk, hmem, ih]

lemma countIncr_mem (m : List (ℕ × ℕ)) (c : ℕ) :
    ∀ p ∈ countIncr m c,
      p ∈ m ∨ (p.1 = c ∧ p.2 = 1) ∨ ∃ v, (p.1, v) ∈ m ∧ p.2 = v + 1 := by
  induction m with
  | nil =>
      intro p hp
      simp [countIncr] at hp
      right; left; simp [hp]
  | cons q rest ih =>
      obtain ⟨k, w⟩ := q
      intro p hp
      by_cases hk : k = c
      · subst hk
        simp [countIncr] at hp
        rcases hp with hp | hp
        · subst hp
          right; right
          exact ⟨w, by simp, rfl⟩
        · left; simp [hp]
      · simp [countIncr, hk] at hp
        rcases hp with hp | hp
        · subst hp
          left; simp
        · rcases ih p hp with h | h | ⟨v, hv, hv2⟩
          · left; simp [h]
          · right; left; exact h
          · right; right; exact ⟨v, by simp [hv], hv2⟩

/-! ### The event-level view of the detection loops -/

/-- The nested class/detection loops, flattened to one fold over
`(class, detection)` events. -/
def procEvents (classes : List String) (acc : SampleAcc)
    (es : List (ℕ × Det)) : Option SampleAcc :=
  es.foldlM (fun a e => procDet classes e.1 a e.2) acc

lemma procPreds_eq_procEvents (classes : List String)
    (preds : List (ℕ × List Det)) (acc : SampleAcc) :
    procPreds classes acc preds = procEvents classes acc (sampleEvents preds) := by
  induction preds generalizing acc with
  | nil => rfl
  | cons p ps ih =>
      have h1 : procPreds classes acc (p :: ps) =
          procDets classes p.1 acc p.2 >>= fun a => procPreds classes a ps := by
        simp [procPreds]
      have h2 : procEvents classes acc (sampleEvents (p :: ps)) =
          procDets classes p.1 acc p.2 >>= fun a =>
            procEvents classes a (sampleEvents ps) := by
        simp only [sampleEvents, List.flatMap_cons, procEvents, List.foldlM_append,
          List.foldlM_map]
        rfl
      rw [h1, h2]
      cases procDets classes p.1 acc p.2 with
      | none => rfl
      | some a => simpa using ih a

@[simp] lemma qualEvents_nil : qualEvents [] = [] := rfl

lemma qualEvents_cons_pos (e : ℕ × Det) (es : List (ℕ × Det))
    (hq : (1 / 4 : ℚ) ≤ e.2.conf) : qualEvents (e :: es) = e :: qualEvents es := by
  simp [qualEvents, List.filter_cons]
  simpa [one_div] using hq

lemma qualEvents_cons_neg (e : ℕ × Det) (es : List (ℕ × Det))
    (hq : ¬ (1 / 4 : ℚ) ≤ e.2.conf) : qualEvents (e :: es) = qualEvents es := by
  simp [qualEvents, List.filter_cons]
  simpa [one_div, not_le] using hq

@[simp] lemma classConfs_nil (c : ℕ) : classConfs c [] = [] := rfl

lemma classConfs_cons_qual_eq (c : ℕ) (e : ℕ × Det) (es : List (ℕ × Det))
    (hq : (1 / 4 : ℚ) ≤ e.2.conf) (hc : e.1 = c) :
    classConfs c (e :: es) = e.2.conf :: classConfs c es := by
  simp [classConfs, qualEvents_cons_pos _ _ hq, hc]

lemma classConfs_cons_qual_ne (c : ℕ) (e : ℕ × Det) (es : List (ℕ × Det))
    (hq : (1 / 4 : ℚ) ≤ e.2.conf) (hc : ¬ e.1 = c) :
    classConfs c (e :: es) = classConfs c es := by
  simp [classConfs, qualEvents_cons_pos _ _ hq, hc]

lemma classConfs_cons_nonqual (c : ℕ) (e : ℕ × Det) (es : List (ℕ × Det))
    (hq : ¬ (1 / 4 : ℚ) ≤ e.2.conf) :
    classConfs c (e :: es) = classConfs c es := by
  simp [classConfs, qualEvents_cons_neg _ _ hq]

/-- Invariant of the loop state: the average buffer keeps the length of
the class list, and the count map has distinct keys, positive counts,
and only in-range class ids. -/
structure AccInv (classes : List String) (acc : SampleAcc) : Prop where
  len_eq : acc.avgConf.length = classes.length
  nodup : (keysOf acc.classCount).Nodup
  pos : ∀ p ∈ acc.classCount, 0 < p.2
  bound : ∀ p ∈ acc.classCount, p.1 < classes.length

lemma procEvents_spec (classes : List String) (es : List (ℕ × Det)) :
    ∀ acc : SampleAcc, AccInv classes acc →
    (∀ e ∈ es, (1 / 4 : ℚ) ≤ e.2.conf → e.1 < classes.length) →
    ∃ acc', procEvents classes acc es = some acc' ∧ AccInv classes acc' ∧
      acc'.boxData =
        acc.boxData ++ (qualEvents es).map (fun e => mkBox classes e.1 e.2) ∧
      (∀ c, acc'.avgConf.getD c 0 =
        acc.avgConf.getD c 0 + (classConfs c es).sum) ∧
      (∀ c, countGet acc'.classCount c =
        countGet acc.classCount c + (classConfs c es).length) := by
  induction es with
  | nil =>
      intro acc hinv _
      exact ⟨acc, rfl, hinv, by simp, fun c => by simp, fun c => by simp⟩
  | cons e rest ih =>
      intro acc hinv hval
      by_cases hq : (1 / 4 : ℚ) ≤ e.2.conf
      · have hcls : e.1 < classes.length := hval e (by simp) hq
        have hlen : e.1 < acc.avgConf.length := by rw [hinv.len_eq]; exact hcls
        have hq4 : (4⁻¹ : ℚ) ≤ e.2.conf := by simpa [one_div] using hq
        set acc1 : SampleAcc :=
          ⟨acc.boxData ++ [mkBox classes e.1 e.2],
           acc.avgConf.set e.1 (acc.avgConf.getD e.1 0 + e.2.conf),
           countIncr acc.classCount e.1⟩ with hacc1
        have hstep : procDet classes e.1 acc e.2 = some acc1 := by
          rw [hacc1]; simp [procDet, hq4, hcls]
        have hinv1 : AccInv classes acc1 := by
          constructor
          · rw [hacc1]; simpa using hinv.len_eq
          · rw [hacc1]; dsimp only
            rw [keysOf_countIncr]
            split
            · exact hinv.nodup
            · rename_i hmem
              simp [List.nodup_append, hinv.nodup, hmem]
          · intro p hp
            rcases countIncr_mem acc.classCount e.1 p (by simpa [hacc1] using hp)
              with h | h | ⟨v, hv, hv2⟩
            · exact hinv.pos p h
            · simp [h.2]
            · omega
          · intro p hp
            rcases countIncr_mem acc.classCount e.1 p (by simpa [hacc1] using hp)
              with h | h | ⟨v, hv, hv2⟩
            · exact hinv.bound p h
            · rw [h.1]; exact hcls
            · exact hinv.bound (p.1, v) hv
        obtain ⟨acc', h1, h2, h3, h4, h5⟩ :=
          ih acc1 hinv1 (fun x hx hqx => hval x (by simp [hx]) hqx)
        refine ⟨acc', ?_, h2, ?_, ?_, ?_⟩
        · simp only [procEvents, List.foldlM_cons]
          rw [hstep]
          simpa [procEvents] using h1
        · rw [h3, qualEvents_cons_pos _ _ hq, List.map_cons]
          rw [hacc1]; dsimp only
          simp [List.append_assoc]
        · intro c
          rw [h4 c]
          by_cases hc : e.1 = c
          · subst hc
            rw [classConfs_cons_qual_eq _ _ _ hq rfl, List.sum_cons]
            rw [hacc1]; dsimp only
            rw [getD_set_self _ _ _ hlen]
            ring
          · rw [classConfs_cons_qual_ne _ _ _ hq hc]
            rw [hacc1]; dsimp only
            rw [getD_set_ne _ _ _ _ hc]
        · intro c
          rw [h5 c]
          rw [hacc1]; dsimp only
          rw [countGet_countIncr]
          by_cases hc : e.1 = c
          · subst hc
            rw [classConfs_cons_qual_eq _ _ _ hq rfl]
            simp
            omega
          · rw [classConfs_cons_qual_ne _ _ _ hq hc]
            have hc' : ¬ c = e.1 := fun h => hc h.symm
            simp [hc']
      · have hq4 : ¬ (4⁻¹ : ℚ) ≤ e.2.conf := by simpa [one_div] using hq
        have hstep : procDet classes e.1 acc e.2 = some acc := by
          simp [procDet, hq4]
        obtain ⟨acc', h1, h2, h3, h4, h5⟩ :=
          ih acc hinv (fun x hx hqx => hval x (by simp [hx]) hqx)
        refine ⟨acc', ?_, h2, ?_, ?_, ?_⟩
        · simp only [procEvents, List.foldlM_cons]
          rw [hstep]
          simpa [procEvents] using h1
        · rw [h3, qualEvents_cons_neg _ _ hq]
        · intro c
          rw [h4 c, classConfs_cons_nonqual _ _ _ hq]
        · intro c
          rw [h5 c, classConfs_cons_nonqual _ _ _ hq]

lemma normalizeAvg_length (cc : List (ℕ × ℕ)) :
    ∀ av : List ℚ, (normalizeAvg av cc).length = av.length := by
  induction cc with
  | nil => intro av; rfl
  | cons p rest ih =>
      intro av
      show (normalizeAvg (av.set p.1 (av.getD p.1 0 / (p.2 : ℚ))) rest).length = _
      rw [ih]
      simp

lemma normalizeAvg_getD_not_mem (cc : List (ℕ × ℕ)) :
    ∀ (av : List ℚ) (c : ℕ), c ∉ keysOf cc →
      (normalizeAvg av cc).getD c 0 = av.getD c 0 := by
  induction cc with
  | nil => intro av c _; rfl
  | cons p rest ih =>
      intro av c hc
      have h1 : ¬ p.1 = c := fun h => hc (by simp [h])
      have h2 : c ∉ keysOf rest := fun h => hc (by simp [h])
      show (normalizeAvg (av.set p.1 (av.getD p.1 0 / (p.2 : ℚ))) rest).getD c 0 = _
      rw [ih _ _ h2, getD_set_ne _ _ _ _ h1]

lemma normalizeAvg_getD (cc : List (ℕ × ℕ)) :
    ∀ av : List ℚ, (keysOf cc).Nodup → (∀ p ∈ cc, 0 < p.2) →
      (∀ p ∈ cc, p.1 < av.length) →
      ∀ c, (normalizeAvg av cc).getD c 0 =
        if countGet cc c = 0 then av.getD c 0
        else av.getD c 0 / (countGet cc c : ℚ) := by
  induction cc with
  | nil =>
      intro av _ _ _ c
      simp [normalizeAvg, countGet]
  | cons p rest ih =>
      intro av hnd hpos hb c
      obtain ⟨k, v⟩ := p
      have hk_not : k ∉ keysOf rest := by
        have := hnd
        simp at this
        exact this.1
      have hnd' : (keysOf rest).Nodup := by
        have := hnd
        simp at this
        exact this.2
      have step : normalizeAvg av ((k, v) :: rest) =
          normalizeAvg (av.set k (av.getD k 0 / (v : ℚ))) rest := rfl
      by_cases hc : k = c
      · subst hc
        rw [step, normalizeAvg_getD_not_mem rest _ _ hk_not]
        have hkv : 0 < v := hpos (k, v) (by simp)
        have hklen : k < av.length := hb (k, v) (by simp)
        rw [getD_set_self _ _ _ hklen]
        have : countGet ((k, v) :: rest) k = v := by simp [countGet]
        rw [this]
        rw [if_neg (by omega)]
      · have hcount : countGet ((k, v) :: rest) c = countGet rest c := by
          simp [countGet, hc]
        rw [step, ih _ hnd' (fun q hq => hpos q (by simp [hq]))
          (fun q hq => by rw [List.length_set]; exact hb q (by simp [hq])) c]
        rw [getD_set_ne _ _ _ _ hc, hcount]

lemma log_eval_sample_spec (sid : ℕ) (path : String)
    (preds : List (ℕ × List Det)) (classes : List String)
    (hval : ∀ p ∈ preds, ∀ d ∈ p.2, (1 / 4 : ℚ) ≤ d.conf → p.1 < classes.length) :
    NanoDetWandbLogger.log_eval_sample sid path preds classes =
      some (Cell.sid sid ::
        Cell.image ⟨path,
          (qualEvents (sampleEvents preds)).map (fun e => mkBox classes e.1 e.2),
          classes.enum, classes.enum⟩ ::
        (List.range classes.length).map (fun c => Cell.conf (specAvg preds c))) := by
  have hval' : ∀ e ∈ sampleEvents preds,
      (1 / 4 : ℚ) ≤ e.2.conf → e.1 < classes.length := by
    intro e he hq
    simp only [sampleEvents, List.mem_flatMap, List.mem_map] at he
    obtain ⟨p, hp, d, hd, rfl⟩ := he
    exact hval p hp d hd hq
  have hinv0 : AccInv classes ⟨[], List.replicate classes.length 0, []⟩ := by
    constructor <;> simp [keysOf]
  obtain ⟨acc', h1, h2, h3, h4, h5⟩ :=
    procEvents_spec classes (sampleEvents preds) _ hinv0 hval'
  have hc : ∀ c, countGet acc'.classCount c =
      (classConfs c (sampleEvents preds)).length := by
    intro c
    rw [h5 c]
    simp [countGet]
  have ha : ∀ c, acc'.avgConf.getD c 0 =
      (classConfs c (sampleEvents preds)).sum := by
    intro c
    rw [h4 c]
    dsimp only
    rw [getD_replicate_zero]
    ring
  have hgetD : ∀ c, (normalizeAvg acc'.avgConf acc'.classCount).getD c 0 =
      specAvg preds c := by
    intro c
    rw [normalizeAvg_getD acc'.classCount acc'.avgConf h2.nodup h2.pos
      (fun p hp => by rw [h2.len_eq]; exact h2.bound p hp) c]
    rw [hc c, ha c]
    simp only [specAvg]
    by_cases h0 : (classConfs c (sampleEvents preds)).length = 0
    · rw [if_pos h0, if_pos h0]
      have hnil : classConfs c (sampleEvents preds) = [] :=
        List.length_eq_zero.mp h0
      simp [hnil]
    · rw [if_neg h0, if_neg h0]
  have hlen' : (normalizeAvg acc'.avgConf acc'.classCount).length =
      classes.length := by
    rw [normalizeAvg_length]
    exact h2.len_eq
  have havg : normalizeAvg acc'.avgConf acc'.classCount =
      (List.range classes.length).map (fun c => specAvg preds c) := by
    apply List.ext_getElem
    · simp [hlen']
    · intro i hi1 hi2
      rw [← getD_eq_getElem_q _ _ hi1, hgetD i]
      simp
  simp only [NanoDetWandbLogger.log_eval_sample]
  rw [procPreds_eq_procEvents, h1]
  simp [h3, havg]

/-! ### Lemmas on the running statistics -/

lemma pushAll_queue (W : ℕ) (vs : List ℚ) :
    ∀ q : List ℚ, q.length ≤ W →
      (MovingAverage.pushAll ⟨W, q⟩ vs).queue =
        (q ++ vs).drop (q.length + vs.length - W) := by
  induction vs with
  | nil =>
      intro q hq
      have h0 : q.length - W = 0 := by omega
      simp [MovingAverage.pushAll, h0]
  | cons v vs ih =>
      intro q hq
      have hstep : MovingAverage.pushAll ⟨W, q⟩ (v :: vs) =
          MovingAverage.pushAll (MovingAverage.push ⟨W, q⟩ v) vs := rfl
      by_cases hover : W < q.length + 1
      · have hcond : (q ++ [v]).length > W := by
          simp only [List.length_append, List.length_singleton]
          omega
        have hpush : MovingAverage.push ⟨W, q⟩ v = ⟨W, (q ++ [v]).drop 1⟩ := by
          simp only [MovingAverage.push]
          rw [if_pos hcond]
        have hlen1 : ((q ++ [v]).drop 1).length ≤ W := by
          simp only [List.length_drop, List.length_append, List.length_singleton]
          omega
        rw [hstep, hpush, ih _ hlen1]
        have hA : ((q ++ [v]).drop 1).length + vs.length - W = vs.length := by
          simp only [List.length_drop, List.length_append, List.length_singleton]
          omega
        have hB : q.length + (v :: vs).length - W = vs.length + 1 := by
          simp only [List.length_cons]
          omega
        rw [hA, hB]
        rw [← List.drop_append_of_le_length
          (show 1 ≤ (q ++ [v]).length by simp)]
        rw [List.drop_drop]
        have e2 : (q ++ [v]) ++ vs = q ++ v :: vs := by simp
        rw [e2]
        congr 1
        omega
      · have hcond : ¬ (q ++ [v]).length > W := by
          simp only [List.length_append, List.length_singleton, gt_iff_lt, not_lt]
          omega
        have hpush : MovingAverage.push ⟨W, q⟩ v = ⟨W, q ++ [v]⟩ := by
          simp only [MovingAverage.push]
          rw [if_neg hcond]
        have hlen1 : (q ++ [v]).length ≤ W := by
          simp only [List.length_append, List.length_singleton]
          omega
        rw [hstep, hpush, ih _ hlen1]
        have e : (q ++ [v]) ++ vs = q ++ v :: vs := by simp
        rw [e]
        have hC : (q ++ [v]).length + vs.length - W =
            q.length + (v :: vs).length - W := by
          simp only [List.length_append, List.length_singleton, List.length_cons,
            List.length_nil]
          omega
        rw [hC]

lemma update_spec (m : AverageMeter) (v : ℚ) (n : ℤ) :
    ∃ m', AverageMeter.update m v n = some m' ∧
      m'.val = v ∧ m'.sum = m.sum + v * n ∧ m'.count = m.count + n ∧
      (0 < m'.count → m'.avg = m'.sum / (m'.count : ℚ)) ∧
      (¬ 0 < m'.count → m'.avg = m.avg) := by
  by_cases h : 0 < m.count + n
  · refine ⟨⟨v, (m.sum + v * n) / ((m.count + n : ℤ) : ℚ), m.sum + v * n, m.count + n⟩,
      ?_, rfl, rfl, rfl, fun _ => rfl, fun hc => absurd h hc⟩
    simp [AverageMeter.update, AverageMeter.pydiv, h, h.ne']
  · refine ⟨⟨v, m.avg, m.sum + v * n, m.count + n⟩,
      ?_, rfl, rfl, rfl, fun hc => absurd hc h, fun _ => rfl⟩
    simp [AverageMeter.update, h]

lemma runUpdates_spec (us : List (ℚ × ℤ)) :
    ∀ m : AverageMeter, 0 < m.count → m.avg = m.sum / (m.count : ℚ) →
      (∀ u ∈ us, 0 < u.2) →
      ∃ m', AverageMeter.runUpdates m us = some m' ∧
        m'.sum = m.sum + (us.map (fun u => u.1 * (u.2 : ℚ))).sum ∧
        m'.count = m.count + (us.map (fun u => u.2)).sum ∧
        0 < m'.count ∧ m'.avg = m'.sum / (m'.count : ℚ) := by
  induction us with
  | nil =>
      intro m h1 h2 _
      exact ⟨m, rfl, by simp, by simp, h1, h2⟩
  | cons u us ih =>
      intro m h1 h2 hpos
      have hu : 0 < u.2 := hpos u (by simp)
      have hcount : 0 < m.count + u.2 := by omega
      have hstep : AverageMeter.update m u.1 u.2 =
          some ⟨u.1, (m.sum + u.1 * u.2) / ((m.count + u.2 : ℤ) : ℚ),
            m.sum + u.1 * u.2, m.count + u.2⟩ := by
        simp [AverageMeter.update, AverageMeter.pydiv, hcount, hcount.ne']
      obtain ⟨m', hm1, hm2, hm3, hm4, hm5⟩ :=
        ih ⟨u.1, (m.sum + u.1 * u.2) / ((m.count + u.2 : ℤ) : ℚ),
          m.sum + u.1 * u.2, m.count + u.2⟩ hcount rfl (fun x hx => hpos x (by simp [hx]))
      refine ⟨m', ?_, ?_, ?_, hm4, hm5⟩
      · show (AverageMeter.update m u.1 u.2 >>= fun a => AverageMeter.runUpdates a us) = some m'
        rw [hstep]
        simpa using hm1
      · rw [hm2]
        simp
        ring
      · rw [hm3]
        simp
        ring

/-! ### The eval-table pipeline (`NanoDetWandbLogger._log_eval_table`,
logger.py lines 305–324) and the rank-gated sink operations -/

/-- One record yielded by the external dataset provider
(`build_dataset(cfg.data.val, "test")`): its `img_info` id and file
name. -/
structure ImgInfo where
  id : ℕ
  file_name : String
deriving DecidableEq

/-- The slice of `cfg` the table pipeline reads: the records the
external dataset provider yields for `cfg.data.val`, the validation
image root `cfg.data.val.img_path`, and `cfg.class_names`. -/
structure Cfg where
  valDataset : List ImgInfo
  valImgPath : String
  class_names : List String
deriving DecidableEq

/-- The dict comprehension
`{data['img_info']['id']: data['img_info']['file_name'] for data in val_dataset}`. -/
def datasetIdMap (cfg : Cfg) : List (ℕ × String) :=
  cfg.valDataset.map (fun r => (r.id, r.file_name))

/-- Python dict lookup `m[k]` on the id→filename cache: `none` is a
`KeyError`. -/
def lookupName (m : List (ℕ × String)) (k : ℕ) : Option String :=
  match m with
  | [] => none
  | p :: rest => if p.1 = k then some p.2 else lookupName rest k

/-- I/O effects a sink operation can perform. -/
inductive Effect where
  | fileWrite : String → Effect
  | consoleWrite : String → Effect
  | scalarWrite : String → ℚ → ℕ → Effect
  | netCall : String → Effect
deriving DecidableEq

/-- Python `pytorch_lightning.utilities.rank_zero_only` — external
collaborator, modelled from its documented contract: the wrapped
operation runs only when the process rank is `0`; on any other rank the
call returns immediately, leaving the state unchanged and performing no
I/O. -/
def rank_zero_only {σ : Type} (rank : ℕ) (f : σ → σ × List Effect)
    (s : σ) : σ × List Effect :=
  if rank = 0 then f s else (s, [])

/-- Observable state of `NanoDetLightningLogger`: the text-log lines
(written to both the file and the console handler), the scalar points
written through `experiment`, and the dumped config snapshots. -/
structure NanoDetLightningLogger where
  logLines : List String
  scalars : List (String × ℚ × ℕ)
  cfgDumps : List String
deriving DecidableEq

/-- Rendering of a metrics dict inside the summary line
`f"{prefix}: {metrics}"`; the exact `repr` text is immaterial to every
claim, only that a line is written. -/
def metricsText (metrics : List (String × ℚ)) : String :=
  String.intercalate ", " (metrics.map Prod.fst)

namespace NanoDetLightningLogger

/-- Python `info(self, string)`: `self.logger.info(string)` — one line to the
file handler and the console handler. -/
def info (rank : ℕ) (s : NanoDetLightningLogger) (msg : String) :
    NanoDetLightningLogger × List Effect :=
  rank_zero_only rank (fun s =>
    ({ s with logLines := s.logLines ++ [msg] },
     [Effect.fileWrite msg, Effect.consoleWrite msg])) s

/-- Python `log(self, string)`: same body as `info`. -/
def log (rank : ℕ) (s : NanoDetLightningLogger) (msg : String) :
    NanoDetLightningLogger × List Effect :=
  rank_zero_only rank (fun s =>
    ({ s with logLines := s.logLines ++ [msg] },
     [Effect.fileWrite msg, Effect.consoleWrite msg])) s

/-- Python `dump_cfg(self, cfg_node)`: write the YAML dump to
`train_cfg.yml`. -/
def dump_cfg (rank : ℕ) (s : NanoDetLightningLogger) (cfg_node : String) :
    NanoDetLightningLogger × List Effect :=
  rank_zero_only rank (fun s =>
    ({ s with cfgDumps := s.cfgDumps ++ [cfg_node] },
     [Effect.fileWrite cfg_node])) s

/-- Python `log_hyperparams(self, params)`: one info line
`f"hyperparams: {params}"`. -/
def log_hyperparams (rank : ℕ) (s : NanoDetLightningLogger)
    (params : String) : NanoDetLightningLogger × List Effect :=
  rank_zero_only rank (fun s =>
    ({ s with logLines := s.logLines ++ ["hyperparams: " ++ params] },
     [Effect.fileWrite ("hyperparams: " ++ params),
      Effect.consoleWrite ("hyperparams: " ++ params)])) s

/-- Python `log_metrics(self, metrics, step, prefix="Val_metrics/")`: one
summary line, then one scalar point per metric key through
`experiment.add_scalars(prefix + k, {"Val": v}, step)`. -/
def log_metrics (rank : ℕ) (s : NanoDetLightningLogger)
    (metrics : List (String × ℚ)) (step : ℕ) (pfx : String) :
    NanoDetLightningLogger × List Effect :=
  rank_zero_only rank (fun s =>
    ({ s with
        logLines := s.logLines ++ [pfx ++ ": " ++ metricsText metrics],
        scalars := s.scalars ++ metrics.map (fun kv => (pfx ++ kv.1, kv.2, step)) },
     Effect.fileWrite (pfx ++ ": " ++ metricsText metrics) ::
       Effect.consoleWrite (pfx ++ ": " ++ metricsText metrics) ::
       metrics.map (fun kv => Effect.scalarWrite (pfx ++ kv.1) kv.2 step))) s

end NanoDetLightningLogger

/-- Sink state of `NanoDetWandbLogger`: the eval-sample cap
`self._num_eval_samples`, the lazily built id→filename cache
`self._id_to_name`, and `self._prefix`. -/
structure NanoDetWandbLogger where
  num_eval_samples : ℕ
  id_to_name : Option (List (ℕ × String))
  pfx : String
deriving DecidableEq

/-- The `log_table` payload: key, columns and the row data. -/
structure TableSubmission where
  key : String
  columns : List String
  data : List (List Cell)
deriving DecidableEq

/-- Result of one `_log_eval_table` call: the updated sink state, the
number of `build_dataset` invocations it made, the accumulated
`eval_table_rows`, and the `log_table` submission if one was issued. -/
structure EvalTableOut where
  state : NanoDetWandbLogger
  providerCalls : ℕ
  rows : List (List Cell)
  submission : Option TableSubmission
deriving DecidableEq

namespace NanoDetWandbLogger

/-- Python `info(self, string)`: `pass`. -/
def info (rank : ℕ) (s : NanoDetWandbLogger) (msg : String) :
    NanoDetWandbLogger × List Effect :=
  rank_zero_only rank (fun s => (s, [])) s

/-- Python `log_metrics(self, metrics, step, prefix="")`: record the prefix in
`self._prefix`, then delegate to the wandb client (a network call). -/
def log_metrics (rank : ℕ) (s : NanoDetWandbLogger)
    (metrics : List (String × ℚ)) (step : ℕ) (p : String) :
    NanoDetWandbLogger × List Effect :=
  rank_zero_only rank (fun s =>
    ({ s with pfx := p }, [Effect.netCall ("log_metrics/" ++ toString step)])) s

/-- Python `dump_cfg(self, cfg_node)`: `pass`. -/
def dump_cfg (rank : ℕ) (s : NanoDetWandbLogger) (cfg_node : String) :
    NanoDetWandbLogger × List Effect :=
  rank_zero_only rank (fun s => (s, [])) s

/-- The loop `for res_id in list(results.keys())[:max_len]`: look up the
file name in the cache (`KeyError` → `none`), join it to the image
root, and build the sample row. -/
def tableLoop (idMap : List (ℕ × String)) (imgPath : String)
    (classNames : List String) :
    List (ℕ × List (ℕ × List Det)) → Option (List (List Cell))
  | [] => some []
  | r :: rest => do
      let fname ← lookupName idMap r.1
      let row ← log_eval_sample r.1 (imgPath ++ "/" ++ fname) r.2 classNames
      let rows ← tableLoop idMap imgPath classNames rest
      pure (row :: rows)

/-- Python `_log_eval_table(self, results, cfg)`: cap the sample count at
`min(len(results), self._num_eval_samples)`, build the id→filename
cache on first need (one `build_dataset` call), build one row per
selected sample, and submit the table only when at least one row was
produced. The `idMap = none` branch with a non-empty selection would be
Python's `TypeError` (`None[res_id]`); it is unreachable because the
cache is always built when `max_len > 0`. -/
def log_eval_table (s : NanoDetWandbLogger) (cfg : Cfg)
    (results : List (ℕ × List (ℕ × List Det))) : Option EvalTableOut :=
  let max_len := min results.length s.num_eval_samples
  let idMap : Option (List (ℕ × String)) :=
    if 0 < max_len ∧ s.id_to_name = none then some (datasetIdMap cfg)
    else s.id_to_name
  let providerCalls : ℕ :=
    if 0 < max_len ∧ s.id_to_name = none then 1 else 0
  let selected := results.take max_len
  match idMap with
  | none =>
      if selected.isEmpty then
        some ⟨{ s with id_to_name := none }, providerCalls, [], none⟩
      else none
  | some m => do
      let rows ← tableLoop m cfg.valImgPath cfg.class_names selected
      let submission : Option TableSubmission :=
        if rows.isEmpty then none
        else some ⟨"eval_samples", "id" :: "prediction" :: cfg.class_names, rows⟩
      pure ⟨{ s with id_to_name := some m }, providerCalls, rows, submission⟩

end NanoDetWandbLogger

/-- A sequence of `_log_eval_table` calls on one sink over its lifetime,
threading the cached mapping and summing the dataset-provider
invocations. -/
def runTableCalls (s : NanoDetWandbLogger) :
    List (Cfg × List (ℕ × List (ℕ × List Det))) →
      Option (NanoDetWandbLogger × ℕ)
  | [] => some (s, 0)
  | c :: rest => do
      let out ← NanoDetWandbLogger.log_eval_table s c.1 c.2
      let r ← runTableCalls out.state rest
      pure (r.1, out.providerCalls + r.2)

/-! ### Lemmas on the eval-table pipeline -/

/-- The id→filename mapping a table call effectively consults: the
cached one, or the freshly built one when no cache exists yet. -/
def effMap (s : NanoDetWandbLogger) (cfg : Cfg) : List (ℕ × String) :=
  match s.id_to_name with
  | some m => m
  | none => datasetIdMap cfg

lemma tableLoop_spec (idMap : List (ℕ × String)) (imgPath : String)
    (classNames : List String) :
    ∀ sel : List (ℕ × List (ℕ × List Det)),
      (∀ r ∈ sel, (lookupName idMap r.1).isSome) →
      (∀ r ∈ sel, ∀ p ∈ r.2, p.1 < classNames.length) →
      ∃ rows, NanoDetWandbLogger.tableLoop idMap imgPath classNames sel = some rows ∧
        rows.length = sel.length ∧
        rows.map rowSid = sel.map (fun r => some r.1) := by
  intro sel
  induction sel with
  | nil => intro _ _; exact ⟨[], rfl, rfl, rfl⟩
  | cons r rest ih =>
      intro hname hcls
      obtain ⟨fname, hf⟩ := Option.isSome_iff_exists.mp (hname r (by simp))
      have hrow := log_eval_sample_spec r.1 (imgPath ++ "/" ++ fname) r.2 classNames
        (fun p hp d _ _ => hcls r (by simp) p hp)
      obtain ⟨rows, h1, h2, h3⟩ :=
        ih (fun x hx => hname x (by simp [hx])) (fun x hx => hcls x (by simp [hx]))
      refine ⟨(Cell.sid r.1 ::
        Cell.image ⟨imgPath ++ "/" ++ fname,
          (qualEvents (sampleEvents r.2)).map (fun e => mkBox classNames e.1 e.2),
          classNames.enum, classNames.enum⟩ ::
        (List.range classNames.length).map (fun c => Cell.conf (specAvg r.2 c))) :: rows,
        ?_, ?_, ?_⟩
      · simp [NanoDetWandbLogger.tableLoop, hf, hrow, h1]
      · simp [h2]
      · simp [h3, rowSid]

lemma log_eval_table_spec (s : NanoDetWandbLogger) (cfg : Cfg)
    (results : List (ℕ × List (ℕ × List Det)))
    (hname : ∀ r ∈ results.take (min results.length s.num_eval_samples),
      (lookupName (effMap s cfg) r.1).isSome)
    (hcls : ∀ r ∈ results.take (min results.length s.num_eval_samples),
      ∀ p ∈ r.2, p.1 < cfg.class_names.length) :
    ∃ out, NanoDetWandbLogger.log_eval_table s cfg results = some out ∧
      out.rows.length = min results.length s.num_eval_samples ∧
      out.rows.map rowSid =
        (results.take (min results.length s.num_eval_samples)).map
          (fun r => some r.1) ∧
      out.submission = (if out.rows.isEmpty then none
        else some ⟨"eval_samples", "id" :: "prediction" :: cfg.class_names,
          out.rows⟩) ∧
      out.state.num_eval_samples = s.num_eval_samples ∧
      out.state.id_to_name =
        (if 0 < min results.length s.num_eval_samples ∧ s.id_to_name = none
          then some (datasetIdMap cfg) else s.id_to_name) ∧
      out.providerCalls =
        (if 0 < min results.length s.num_eval_samples ∧ s.id_to_name = none
          then 1 else 0) := by
  obtain ⟨rows, hr1, hr2, hr3⟩ :=
    tableLoop_spec (effMap s cfg) cfg.valImgPath cfg.class_names
      (results.take (min results.length s.num_eval_samples)) hname hcls
  have hlen : rows.length = min results.length s.num_eval_samples := by
    rw [hr2, List.length_take]
    omega
  cases hmn : s.id_to_name with
  | some m =>
      have heff : effMap s cfg = m := by simp [effMap, hmn]
      rw [heff] at hr1
      refine ⟨⟨{ s with id_to_name := some m }, 0, rows,
        if rows.isEmpty then none
        else some ⟨"eval_samples", "id" :: "prediction" :: cfg.class_names, rows⟩⟩,
        ?_, hlen, hr3, rfl, rfl, by simp [hmn], by simp [hmn]⟩
      simp [NanoDetWandbLogger.log_eval_table, hmn, hr1]
  | none =>
      have heff : effMap s cfg = datasetIdMap cfg := by simp [effMap, hmn]
      rw [heff] at hr1
      by_cases hpos : 0 < min results.length s.num_eval_samples
      · refine ⟨⟨{ s with id_to_name := some (datasetIdMap cfg) }, 1, rows,
          if rows.isEmpty then none
          else some ⟨"eval_samples", "id" :: "prediction" :: cfg.class_names, rows⟩⟩,
          ?_, hlen, hr3, rfl, rfl, by simp [hmn, hpos], by simp [hmn, hpos]⟩
        simp [NanoDetWandbLogger.log_eval_table, hmn, hpos, hr1]
      · have hz : min results.length s.num_eval_samples = 0 := by omega
        have hsel : results.take (min results.length s.num_eval_samples) = [] := by
          rw [hz]
          simp
        rw [hsel] at hr1 hr3
        have hrows : rows = [] := by
          have := hr1
          simp [NanoDetWandbLogger.tableLoop] at this
          exact this
        subst hrows
        refine ⟨⟨{ s with id_to_name := none }, 0, [], none⟩,
          ?_, by simp [hz], by simp [hsel], by simp, rfl, by simp [hmn, hz],
          by simp [hmn, hz]⟩
        simp [NanoDetWandbLogger.log_eval_table, hmn, hz, hsel]

lemma log_eval_table_cached (s : NanoDetWandbLogger) (cfg : Cfg)
    (results : List (ℕ × List (ℕ × List Det))) (m : List (ℕ × String))
    (out : EvalTableOut) (hm : s.id_to_name = some m)
    (h : NanoDetWandbLogger.log_eval_table s cfg results = some out) :
    out.state.id_to_name = some m ∧ out.providerCalls = 0 ∧
      out.state.num_eval_samples = s.num_eval_samples := by
  simp only [NanoDetWandbLogger.log_eval_table, hm] at h
  simp at h
  cases htl : NanoDetWandbLogger.tableLoop m cfg.valImgPath cfg.class_names
      (results.take (min results.length s.num_eval_samples)) with
  | none => rw [htl] at h; simp at h
  | some rows =>
      rw [htl] at h
      simp at h
      rw [← h]
      exact ⟨rfl, rfl, rfl⟩

lemma log_eval_table_fresh (s : NanoDetWandbLogger) (cfg : Cfg)
    (results : List (ℕ × List (ℕ × List Det))) (out : EvalTableOut)
    (hm : s.id_to_name = none)
    (h : NanoDetWandbLogger.log_eval_table s cfg results = some out) :
    out.state.num_eval_samples = s.num_eval_samples ∧
    out.state.id_to_name = (if 0 < min results.length s.num_eval_samples
      then some (datasetIdMap cfg) else none) ∧
    out.providerCalls = (if 0 < min results.length s.num_eval_samples
      then 1 else 0) := by
  by_cases hpos : 0 < min results.length s.num_eval_samples
  · simp only [NanoDetWandbLogger.log_eval_table, hm, hpos] at h
    simp [hpos] at h
    cases htl : NanoDetWandbLogger.tableLoop (datasetIdMap cfg) cfg.valImgPath
        cfg.class_names (results.take (min results.length s.num_eval_samples)) with
    | none => rw [htl] at h; simp at h
    | some rows =>
        rw [htl] at h
        simp at h
        rw [← h]
        exact ⟨rfl, by simp [hpos], by simp [hpos]⟩
  · have hz : min results.length s.num_eval_samples = 0 := by omega
    simp only [NanoDetWandbLogger.log_eval_table, hm, hz] at h
    simp at h
    rw [← h]
    exact ⟨rfl, by simp [hz], by simp [hz]⟩

lemma runTableCalls_cached (m : List (ℕ × String)) :
    ∀ (calls : List (Cfg × List (ℕ × List (ℕ × List Det))))
      (s : NanoDetWandbLogger) (r : NanoDetWandbLogger × ℕ),
      s.id_to_name = some m → runTableCalls s calls = some r →
      r.1.id_to_name = some m ∧ r.2 = 0 := by
  intro calls
  induction calls with
  | nil =>
      intro s r hm h
      simp only [runTableCalls] at h
      have h' := Option.some.inj h
      rw [← h']
      exact ⟨hm, rfl⟩
  | cons c rest ih =>
      intro s r hm h
      simp only [runTableCalls] at h
      cases hout : NanoDetWandbLogger.log_eval_table s c.1 c.2 with
      | none => rw [hout] at h; exact Option.noConfusion h
      | some out =>
          rw [hout] at h
          simp only [Option.bind_eq_bind, Option.some_bind] at h
          obtain ⟨hcache, hzero, _⟩ := log_eval_table_cached s c.1 c.2 m out hm hout
          cases hrec : runTableCalls out.state rest with
          | none => rw [hrec] at h; exact Option.noConfusion h
          | some r2 =>
              rw [hrec] at h
              simp only [Option.bind_eq_bind, Option.some_bind] at h
              have h' := Option.some.inj h
              obtain ⟨h1, h2⟩ := ih out.state r2 hcache hrec
              rw [← h']
              exact ⟨h1, by omega⟩

lemma runTableCalls_fresh :
    ∀ (calls : List (Cfg × List (ℕ × List (ℕ × List Det))))
      (s : NanoDetWandbLogger) (r : NanoDetWandbLogger × ℕ),
      s.id_to_name = none → runTableCalls s calls = some r → r.2 ≤ 1 := by
  intro calls
  induction calls with
  | nil =>
      intro s r _ h
      simp only [runTableCalls] at h
      have h' := Option.some.inj h
      rw [← h']
      exact Nat.zero_le 1
  | cons c rest ih =>
      intro s r hm h
      simp only [runTableCalls] at h
      cases hout : NanoDetWandbLogger.log_eval_table s c.1 c.2 with
      | none => rw [hout] at h; exact Option.noConfusion h
      | some out =>
          rw [hout] at h
          simp only [Option.bind_eq_bind, Option.some_bind] at h
          obtain ⟨_, hcache, hcalls⟩ := log_eval_table_fresh s c.1 c.2 out hm hout
          cases hrec : runTableCalls out.state rest with
          | none => rw [hrec] at h; exact Option.noConfusion h
          | some r2 =>
              rw [hrec] at h
              simp only [Option.bind_eq_bind, Option.some_bind] at h
              have h' := Option.some.inj h
              rw [← h']
              by_cases hpos : 0 < min c.2.length s.num_eval_samples
              · rw [if_pos hpos] at hcache hcalls
                obtain ⟨_, h2⟩ := runTableCalls_cached (datasetIdMap c.1) rest
                  out.state r2 hcache hrec
                simp only
                omega
              · rw [if_neg hpos] at hcache hcalls
                have h2 := ih out.state r2 hcache hrec
                simp only
                omega

/-! ### Claim theorems -/

/-- C3: for every window size W ≥ 1, after each push since the most
recent reset (construction = reset + first push) the retained values
are exactly the most recent min(#pushes, W) pushed values — the size
never exceeds W and the oldest value is evicted first (FIFO). -/
theorem movingAverage_window_fifo (W : ℕ) (hW : 1 ≤ W) :
    (∀ m : MovingAverage, m.window_size = W → ∀ vs : List ℚ,
      (m.reset.pushAll vs).queue = vs.drop (vs.length - W) ∧
      (m.reset.pushAll vs).queue.length = min vs.length W) ∧
    (∀ (v : ℚ) (vs : List ℚ),
      ((mkMovingAverage v W).pushAll vs).queue =
        (v :: vs).drop (vs.length + 1 - W) ∧
      ((mkMovingAverage v W).pushAll vs).queue.length = min (vs.length + 1) W) := by
  have key : ∀ vs : List ℚ,
      (MovingAverage.pushAll ⟨W, []⟩ vs).queue = vs.drop (vs.length - W) := by
    intro vs
    have h := pushAll_queue W vs [] (by simp)
    simpa using h
  have keylen : ∀ vs : List ℚ,
      (MovingAverage.pushAll ⟨W, []⟩ vs).queue.length = min vs.length W := by
    intro vs
    rw [key vs, List.length_drop]
    omega
  constructor
  · intro m hm vs
    have hreset : m.reset = (⟨W, []⟩ : MovingAverage) := by
      simp [MovingAverage.reset, hm]
    rw [hreset]
    exact ⟨key vs, keylen vs⟩
  · intro v vs
    have hmk : (mkMovingAverage v W).pushAll vs =
        MovingAverage.pushAll ⟨W, []⟩ (v :: vs) := rfl
    rw [hmk]
    have h1 := key (v :: vs)
    have h2 := keylen (v :: vs)
    constructor
    · rw [h1]
      simp
    · rw [h2]
      simp

/-- Witness for C3 at window size 2, construction value 7, and three
further pushes. -/
theorem movingAverage_window_fifo_witness :
    1 ≤ 2 ∧
    (((⟨2, [5]⟩ : MovingAverage).reset.pushAll [1, 2, 3]).queue =
        [1, 2, 3].drop ([1, 2, 3].length - 2) ∧
      ((⟨2, [5]⟩ : MovingAverage).reset.pushAll [1, 2, 3]).queue.length =
        min [1, 2, 3].length 2) ∧
    (((mkMovingAverage 7 2).pushAll [1, 2, 3]).queue =
        ((7 : ℚ) :: [1, 2, 3]).drop ([1, 2, 3].length + 1 - 2) ∧
      ((mkMovingAverage 7 2).pushAll [1, 2, 3]).queue.length =
        min ([1, 2, 3].length + 1) 2) :=
  ⟨by omega,
   (movingAverage_window_fifo 2 (by omega)).1 ⟨2, [5]⟩ rfl [1, 2, 3],
   (movingAverage_window_fifo 2 (by omega)).2 7 [1, 2, 3]⟩

/-- C4: after construction with an initial value (the first update,
multiplicity 1) and any updates with positive multiplicities, the sum
is Σ vᵢ·nᵢ, the count is Σ nᵢ, and the average is sum / count (the
count being positive). -/
theorem averageMeter_running_invariant (v0 : ℚ) (us : List (ℚ × ℤ))
    (hpos : ∀ u ∈ us, 0 < u.2) :
    ∃ m, (mkAverageMeter v0 >>= fun m0 => AverageMeter.runUpdates m0 us) = some m ∧
      m.sum = v0 * 1 + (us.map (fun u => u.1 * (u.2 : ℚ))).sum ∧
      m.count = 1 + (us.map (fun u => u.2)).sum ∧
      0 < m.count ∧ m.avg = m.sum / (m.count : ℚ) := by
  obtain ⟨m0, hu0, _, husum, hucount, huavg, _⟩ :=
    update_spec AverageMeter.reset v0 1
  have hsum0 : m0.sum = v0 * 1 := by
    rw [husum]
    simp [AverageMeter.reset]
  have hcount0 : m0.count = 1 := by
    rw [hucount]
    simp [AverageMeter.reset]
  have hpos0 : 0 < m0.count := by omega
  obtain ⟨m, h1, h2, h3, h4, h5⟩ :=
    runUpdates_spec us m0 hpos0 (huavg hpos0) hpos
  refine ⟨m, ?_, ?_, ?_, h4, h5⟩
  · show (AverageMeter.update AverageMeter.reset v0 1 >>=
      fun a => AverageMeter.runUpdates a us) = some m
    rw [hu0]
    simpa using h1
  · rw [h2, hsum0]
  · rw [h3, hcount0]

/-- Witness for C4: initial value 2 followed by updates (4, 2) and
(1, 1). -/
theorem averageMeter_running_invariant_witness :
    (∀ u ∈ ([(4, 2), (1, 1)] : List (ℚ × ℤ)), 0 < u.2) ∧
    ∃ m, (mkAverageMeter 2 >>=
        fun m0 => AverageMeter.runUpdates m0 [(4, 2), (1, 1)]) = some m ∧
      m.sum = 2 * 1 +
        (([(4, 2), (1, 1)] : List (ℚ × ℤ)).map (fun u => u.1 * (u.2 : ℚ))).sum ∧
      m.count = 1 + (([(4, 2), (1, 1)] : List (ℚ × ℤ)).map (fun u => u.2)).sum ∧
      0 < m.count ∧ m.avg = m.sum / (m.count : ℚ) :=
  ⟨by decide, averageMeter_running_invariant 2 [(4, 2), (1, 1)] (by decide)⟩

/-- C7 counterexample: calling `avg()` after `reset()` with no
subsequent push does not fail fast with an error — the code returns
`np.mean([])`, the silently produced NaN placeholder value. -/
theorem movingAverage_empty_avg_counterexample :
    (mkMovingAverage (9 / 10) 50).reset.avg = MeanResult.nan := rfl

/-- C7 amended: querying the average of an empty window raises no
InvalidState error; `np.mean` of the empty queue silently returns the
NaN placeholder, and the NaN result occurs exactly when the window is
empty. -/
theorem movingAverage_empty_avg_is_nan (m : MovingAverage) :
    m.avg = MeanResult.nan ↔ m.queue = [] := by
  constructor
  · intro h
    cases hq : m.queue with
    | nil => rfl
    | cons x xs =>
        simp [MovingAverage.avg, npMean, hq] at h
  · intro h
    simp [MovingAverage.avg, npMean, h]

/-- C8: `update(v, n)` never divides by zero: it always succeeds,
assigns `val`, `sum` and `count`, recomputes `avg` only when the new
count is positive, and keeps the previous `avg` otherwise (e.g. for
`update(v, 0)` right after `reset()`). -/
theorem averageMeter_update_no_div_by_zero (m : AverageMeter) (v : ℚ) (n : ℤ) :
    ∃ m', AverageMeter.update m v n = some m' ∧ m'.val = v ∧
      m'.sum = m.sum + v * n ∧ m'.count = m.count + n ∧
      (0 < m'.count → m'.avg = m'.sum / (m'.count : ℚ)) ∧
      (¬ 0 < m'.count → m'.avg = m.avg) :=
  update_spec m v n

/-- Witness for C8 at the state right after `reset()` with `update(5, 0)`:
the call succeeds and the average survives unchanged. -/
theorem averageMeter_update_no_div_by_zero_witness :
    ∃ m', AverageMeter.update AverageMeter.reset 5 0 = some m' ∧ m'.val = 5 ∧
      m'.sum = AverageMeter.reset.sum + 5 * 0 ∧
      m'.count = AverageMeter.reset.count + 0 ∧
      (0 < m'.count → m'.avg = m'.sum / (m'.count : ℚ)) ∧
      (¬ 0 < m'.count → m'.avg = AverageMeter.reset.avg) :=
  averageMeter_update_no_div_by_zero AverageMeter.reset 5 0

/-- C1: whenever every class id occurring in the predictions is a valid
index into the class-name list, the eval-sample builder emits exactly
one annotated box per detection with confidence ≥ 0.25 (in order, with
its class and confidence), and the per-class average confidence is the
sum of qualifying confidences divided by their count for every class
with a qualifying detection and 0 for every other class; in particular,
for predictions `{0: [(0,0,10,10,0.9)], 1: [(5,5,8,8,0.1)]}` on sample
1 with class names `["cat", "dog"]` the row holds exactly one box
(class 0, confidence 0.9) and per-class averages `[0.9, 0]`. -/
theorem eval_sample_boxes_and_averages :
    (∀ (sid : ℕ) (path : String) (preds : List (ℕ × List Det))
        (classes : List String),
      (∀ p ∈ preds, p.1 < classes.length) →
      ∃ img : WandbImage,
        NanoDetWandbLogger.log_eval_sample sid path preds classes =
          some (Cell.sid sid :: Cell.image img ::
            (List.range classes.length).map (fun c => Cell.conf (specAvg preds c))) ∧
        img.boxData.map (fun b => (b.classId, b.classScore)) =
          (qualEvents (sampleEvents preds)).map (fun e => (e.1, e.2.conf)) ∧
        img.boxData.length = (qualEvents (sampleEvents preds)).length) ∧
    (NanoDetWandbLogger.log_eval_sample 1 "val/img1.jpg"
        [(0, [⟨0, 0, 10, 10, 9 / 10⟩]), (1, [⟨5, 5, 8, 8, 1 / 10⟩])]
        ["cat", "dog"]).map (fun row => (rowBoxes row, rowConfs row)) =
      some ([(0, 9 / 10)], [9 / 10, 0]) := by
  constructor
  · intro sid path preds classes hval
    refine ⟨⟨path,
      (qualEvents (sampleEvents preds)).map (fun e => mkBox classes e.1 e.2),
      classes.enum, classes.enum⟩, ?_, ?_, ?_⟩
    · exact log_eval_sample_spec sid path preds classes (fun p hp _ _ _ => hval p hp)
    · simp [List.map_map]
      intro a b _
      exact ⟨rfl, rfl⟩
    · simp
  · norm_num [NanoDetWandbLogger.log_eval_sample, procPreds, procDets, procDet,
      normalizeAvg, mkBox, countIncr, rowBoxes, rowConfs, List.foldlM,
      List.replicate, List.filterMap_cons]

/-- Witness for C1 on a single in-range prediction. -/
theorem eval_sample_boxes_and_averages_witness :
    (∀ p ∈ ([(0, [⟨0, 0, 10, 10, 9 / 10⟩])] : List (ℕ × List Det)),
      p.1 < (["cat"] : List String).length) ∧
    ∃ img : WandbImage,
      NanoDetWandbLogger.log_eval_sample 7 "w.jpg"
          [(0, [⟨0, 0, 10, 10, 9 / 10⟩])] ["cat"] =
        some (Cell.sid 7 :: Cell.image img ::
          (List.range (["cat"] : List String).length).map
            (fun c => Cell.conf (specAvg [(0, [⟨0, 0, 10, 10, 9 / 10⟩])] c))) ∧
      img.boxData.map (fun b => (b.classId, b.classScore)) =
        (qualEvents (sampleEvents [(0, [⟨0, 0, 10, 10, 9 / 10⟩])])).map
          (fun e => (e.1, e.2.conf)) ∧
      img.boxData.length =
        (qualEvents (sampleEvents [(0, [⟨0, 0, 10, 10, 9 / 10⟩])])).length :=
  ⟨by intro p hp; simp at hp; simp [hp],
   eval_sample_boxes_and_averages.1 7 "w.jpg" [(0, [⟨0, 0, 10, 10, 9 / 10⟩])] ["cat"]
     (by intro p hp; simp at hp; simp [hp])⟩

lemma filterMap_conf_map (f : ℕ → ℚ) (l : List ℕ) :
    (l.map (fun c => Cell.conf (f c))).filterMap
      (fun c => match c with | Cell.conf q => some q | _ => none) = l.map f := by
  induction l with
  | nil => rfl
  | cons x rest ih => simp [List.filterMap_cons, ih]

lemma rowConfs_spec_row (sid : ℕ) (img : WandbImage) (f : ℕ → ℚ) (l : List ℕ) :
    rowConfs (Cell.sid sid :: Cell.image img ::
      l.map (fun c => Cell.conf (f c))) = l.map f := by
  simp only [rowConfs, List.filterMap_cons]
  exact filterMap_conf_map f l

/-- C10: every row the eval-sample builder constructs has exactly
2 + len(class_names) cells — the id, the annotated image, then one
per-class average — so its arity matches the declared column list
["id", "prediction", *class_names]; the average list always has length
len(class_names), provided every occurring class id is in range. -/
theorem eval_row_arity (sid : ℕ) (path : String)
    (preds : List (ℕ × List Det)) (classes : List String)
    (hval : ∀ p ∈ preds, p.1 < classes.length) :
    ∃ row, NanoDetWandbLogger.log_eval_sample sid path preds classes = some row ∧
      row.length = 2 + classes.length ∧
      (rowConfs row).length = classes.length := by
  refine ⟨_, log_eval_sample_spec sid path preds classes
    (fun p hp _ _ _ => hval p hp), ?_, ?_⟩
  · simp
    omega
  · rw [rowConfs_spec_row]
    simp

/-- Witness for C10 on a single in-range prediction over two classes. -/
theorem eval_row_arity_witness :
    (∀ p ∈ ([(1, [⟨0, 0, 4, 4, 1 / 2⟩])] : List (ℕ × List Det)),
      p.1 < (["cat", "dog"] : List String).length) ∧
    ∃ row, NanoDetWandbLogger.log_eval_sample 3 "x.jpg"
        [(1, [⟨0, 0, 4, 4, 1 / 2⟩])] ["cat", "dog"] = some row ∧
      row.length = 2 + (["cat", "dog"] : List String).length ∧
      (rowConfs row).length = (["cat", "dog"] : List String).length :=
  ⟨by intro p hp; simp at hp; simp [hp],
   eval_row_arity 3 "x.jpg" [(1, [⟨0, 0, 4, 4, 1 / 2⟩])] ["cat", "dog"]
     (by intro p hp; simp at hp; simp [hp])⟩

/-- C2: on a process whose rank is not the coordinator rank 0, every
sink write operation defined by the module among `log`, `log_metrics`,
`dump_cfg` and `log_hyperparams` is a no-op: the sink state is
unchanged and no file, console, scalar or network I/O is performed. -/
theorem non_coordinator_writes_are_noops (rank : ℕ) (hrank : rank ≠ 0) :
    (∀ (s : NanoDetLightningLogger) (msg : String),
      NanoDetLightningLogger.log rank s msg = (s, [])) ∧
    (∀ (s : NanoDetLightningLogger) (metrics : List (String × ℚ))
        (step : ℕ) (p : String),
      NanoDetLightningLogger.log_metrics rank s metrics step p = (s, [])) ∧
    (∀ (s : NanoDetLightningLogger) (cfg_node : String),
      NanoDetLightningLogger.dump_cfg rank s cfg_node = (s, [])) ∧
    (∀ (s : NanoDetLightningLogger) (params : String),
      NanoDetLightningLogger.log_hyperparams rank s params = (s, [])) ∧
    (∀ (s : NanoDetWandbLogger) (metrics : List (String × ℚ))
        (step : ℕ) (p : String),
      NanoDetWandbLogger.log_metrics rank s metrics step p = (s, [])) ∧
    (∀ (s : NanoDetWandbLogger) (cfg_node : String),
      NanoDetWandbLogger.dump_cfg rank s cfg_node = (s, [])) := by
  refine ⟨?_, ?_, ?_, ?_, ?_, ?_⟩ <;> intros <;>
    simp [NanoDetLightningLogger.log, NanoDetLightningLogger.log_metrics,
      NanoDetLightningLogger.dump_cfg, NanoDetLightningLogger.log_hyperparams,
      NanoDetWandbLogger.log_metrics, NanoDetWandbLogger.dump_cfg,
      rank_zero_only, hrank]

/-- Witness for C2 at rank 1 on concrete sink states. -/
theorem non_coordinator_writes_are_noops_witness :
    (1 : ℕ) ≠ 0 ∧
    NanoDetLightningLogger.log 1 ⟨[], [], []⟩ "hello" = (⟨[], [], []⟩, []) ∧
    NanoDetLightningLogger.dump_cfg 1 ⟨[], [], []⟩ "cfg" = (⟨[], [], []⟩, []) ∧
    NanoDetWandbLogger.log_metrics 1 ⟨16, none, ""⟩ [("mAP", 1/2)] 3 "Val/" =
      (⟨16, none, ""⟩, []) :=
  ⟨by decide,
   (non_coordinator_writes_are_noops 1 (by decide)).1 ⟨[], [], []⟩ "hello",
   (non_coordinator_writes_are_noops 1 (by decide)).2.2.1 ⟨[], [], []⟩ "cfg",
   (non_coordinator_writes_are_noops 1 (by decide)).2.2.2.2.1
     ⟨16, none, ""⟩ [("mAP", 1/2)] 3 "Val/"⟩

/-- C5: the eval-table builder processes exactly
min(len(results), num_eval_samples) samples — the first that many ids
in the results mapping's iteration order; in particular, 20 result
entries with num_eval_samples = 16 yield exactly 16 rows, the first 16
by iteration order. -/
theorem eval_table_sample_cap :
    (∀ (s : NanoDetWandbLogger) (cfg : Cfg)
        (results : List (ℕ × List (ℕ × List Det))),
      (∀ r ∈ results.take (min results.length s.num_eval_samples),
        (lookupName (effMap s cfg) r.1).isSome) →
      (∀ r ∈ results.take (min results.length s.num_eval_samples),
        ∀ p ∈ r.2, p.1 < cfg.class_names.length) →
      ∃ out, NanoDetWandbLogger.log_eval_table s cfg results = some out ∧
        out.rows.length = min results.length s.num_eval_samples ∧
        out.rows.map rowSid =
          (results.take (min results.length s.num_eval_samples)).map
            (fun r => some r.1)) ∧
    (NanoDetWandbLogger.log_eval_table ⟨16, none, ""⟩
        ⟨(List.range 20).map (fun i => ⟨i, "f.jpg"⟩), "val", ["cat"]⟩
        ((List.range 20).map (fun i => (i, [])))).map
      (fun out => (out.rows.length, out.rows.map rowSid)) =
      some (16, (List.range 16).map (fun i => some i)) := by
  constructor
  · intro s cfg results hname hcls
    obtain ⟨out, h1, h2, h3, _⟩ := log_eval_table_spec s cfg results hname hcls
    exact ⟨out, h1, h2, h3⟩
  · rfl

/-- Witness for C5 on three result entries with a cap of two. -/
theorem eval_table_sample_cap_witness :
    (∀ r ∈ ([(0, []), (1, []), (2, [])] :
        List (ℕ × List (ℕ × List Det))).take
        (min ([(0, []), (1, []), (2, [])] :
          List (ℕ × List (ℕ × List Det))).length
          (⟨2, none, ""⟩ : NanoDetWandbLogger).num_eval_samples),
      (lookupName (effMap ⟨2, none, ""⟩
        ⟨[⟨0, "a"⟩, ⟨1, "b"⟩, ⟨2, "c"⟩], "val", ["cat"]⟩) r.1).isSome) ∧
    ∃ out, NanoDetWandbLogger.log_eval_table ⟨2, none, ""⟩
        ⟨[⟨0, "a"⟩, ⟨1, "b"⟩, ⟨2, "c"⟩], "val", ["cat"]⟩
        [(0, []), (1, []), (2, [])] = some out ∧
      out.rows.length = min ([(0, []), (1, []), (2, [])] :
        List (ℕ × List (ℕ × List Det))).length
        (⟨2, none, ""⟩ : NanoDetWandbLogger).num_eval_samples ∧
      out.rows.map rowSid =
        (([(0, []), (1, []), (2, [])] :
          List (ℕ × List (ℕ × List Det))).take
          (min ([(0, []), (1, []), (2, [])] :
            List (ℕ × List (ℕ × List Det))).length
            (⟨2, none, ""⟩ : NanoDetWandbLogger).num_eval_samples)).map
          (fun r => some r.1) :=
  ⟨by decide,
   eval_table_sample_cap.1 ⟨2, none, ""⟩
     ⟨[⟨0, "a"⟩, ⟨1, "b"⟩, ⟨2, "c"⟩], "val", ["cat"]⟩
     [(0, []), (1, []), (2, [])] (by decide) (by decide)⟩

/-- C6 counterexample: one selected sample whose only detection has
confidence 0.1 < 0.25 — zero qualifying detections across all samples —
still produces one row and issues a table submission, contradicting
the claim that zero rows are produced and nothing is submitted. -/
theorem eval_table_zero_qual_counterexample :
    (NanoDetWandbLogger.log_eval_table ⟨16, some [(1, "a.jpg")], ""⟩
        ⟨[], "val", ["cat"]⟩ [(1, [(0, [⟨5, 5, 8, 8, 1 / 10⟩])])]).map
      (fun out => (out.rows.length, out.submission.isSome)) = some (1, true) := by
  norm_num [NanoDetWandbLogger.log_eval_table, NanoDetWandbLogger.tableLoop,
    lookupName, NanoDetWandbLogger.log_eval_sample, procPreds, procDets, procDet,
    normalizeAvg, countIncr, List.foldlM, List.replicate]
  simp [lookupName]

/-- C6 amended: the pipeline produces one row per selected sample
regardless of detection confidences, so zero rows arise exactly when no
sample is selected (min(len(results), num_eval_samples) = 0); a table
submission — keyed "eval_samples" with columns ["id", "prediction",
*class_names] and carrying exactly the produced rows — is issued if and
only if at least one row was produced. -/
theorem eval_table_submission_iff_rows (s : NanoDetWandbLogger) (cfg : Cfg)
    (results : List (ℕ × List (ℕ × List Det)))
    (hname : ∀ r ∈ results.take (min results.length s.num_eval_samples),
      (lookupName (effMap s cfg) r.1).isSome)
    (hcls : ∀ r ∈ results.take (min results.length s.num_eval_samples),
      ∀ p ∈ r.2, p.1 < cfg.class_names.length) :
    ∃ out, NanoDetWandbLogger.log_eval_table s cfg results = some out ∧
      out.rows.length = min results.length s.num_eval_samples ∧
      (out.rows = [] ↔ min results.length s.num_eval_samples = 0) ∧
      (out.submission.isSome ↔ out.rows ≠ []) ∧
      (∀ t, out.submission = some t → t.key = "eval_samples" ∧
        t.columns = "id" :: "prediction" :: cfg.class_names ∧
        t.data = out.rows) := by
  obtain ⟨out, h1, h2, h3, h4, h5, h6, h7⟩ :=
    log_eval_table_spec s cfg results hname hcls
  refine ⟨out, h1, h2, ?_, ?_, ?_⟩
  · rw [← h2, List.length_eq_zero]
  · rw [h4]
    by_cases hr : out.rows = []
    · simp [hr]
    · simp [List.isEmpty_iff, hr]
  · intro t ht
    rw [h4] at ht
    by_cases hr : out.rows = []
    · simp [hr] at ht
    · have hne : ¬ out.rows.isEmpty = true := by
        simp [List.isEmpty_iff, hr]
      rw [if_neg hne] at ht
      have hinj := Option.some.inj ht
      rw [← hinj]
      exact ⟨rfl, rfl, rfl⟩

/-- Witness for the amended C6 on one sample with one sub-threshold
detection. -/
theorem eval_table_submission_iff_rows_witness :
    (∀ r ∈ ([(1, [(0, [⟨5, 5, 8, 8, 1 / 10⟩])])] :
        List (ℕ × List (ℕ × List Det))).take
        (min ([(1, [(0, [⟨5, 5, 8, 8, 1 / 10⟩])])] :
          List (ℕ × List (ℕ × List Det))).length
          (⟨16, some [(1, "a.jpg")], ""⟩ : NanoDetWandbLogger).num_eval_samples),
      (lookupName (effMap ⟨16, some [(1, "a.jpg")], ""⟩
        ⟨[], "val", ["cat"]⟩) r.1).isSome) ∧
    ∃ out, NanoDetWandbLogger.log_eval_table ⟨16, some [(1, "a.jpg")], ""⟩
        ⟨[], "val", ["cat"]⟩ [(1, [(0, [⟨5, 5, 8, 8, 1 / 10⟩])])] = some out ∧
      out.rows.length = min ([(1, [(0, [⟨5, 5, 8, 8, 1 / 10⟩])])] :
        List (ℕ × List (ℕ × List Det))).length
        (⟨16, some [(1, "a.jpg")], ""⟩ : NanoDetWandbLogger).num_eval_samples ∧
      (out.rows = [] ↔ min ([(1, [(0, [⟨5, 5, 8, 8, 1 / 10⟩])])] :
        List (ℕ × List (ℕ × List Det))).length
        (⟨16, some [(1, "a.jpg")], ""⟩ : NanoDetWandbLogger).num_eval_samples = 0) ∧
      (out.submission.isSome ↔ out.rows ≠ []) ∧
      (∀ t, out.submission = some t → t.key = "eval_samples" ∧
        t.columns = "id" :: "prediction" ::
          (⟨[], "val", ["cat"]⟩ : Cfg).class_names ∧
        t.data = out.rows) :=
  ⟨by intro r hr; simp at hr; simp [hr, effMap, lookupName],
   eval_table_submission_iff_rows ⟨16, some [(1, "a.jpg")], ""⟩
     ⟨[], "val", ["cat"]⟩ [(1, [(0, [⟨5, 5, 8, 8, 1 / 10⟩])])]
     (by intro r hr; simp at hr; simp [hr, effMap, lookupName])
     (by intro r hr; simp at hr; intro p hp; simp [hr] at hp; simp [hp])⟩

/-- C9: the id→filename cache is built at most once per sink lifetime:
once it holds some mapping, every later successful table call keeps it
unchanged and makes no dataset-provider call; starting from a fresh
sink (cache `None`), any successful sequence of table calls makes at
most one provider call in total, and a single call populates the cache
(with one provider call) exactly when it selects at least one sample. -/
theorem id_to_name_cache_built_once :
    (∀ (m : List (ℕ × String))
        (calls : List (Cfg × List (ℕ × List (ℕ × List Det))))
        (s : NanoDetWandbLogger) (r : NanoDetWandbLogger × ℕ),
      s.id_to_name = some m → runTableCalls s calls = some r →
      r.1.id_to_name = some m ∧ r.2 = 0) ∧
    (∀ (calls : List (Cfg × List (ℕ × List (ℕ × List Det))))
        (s : NanoDetWandbLogger) (r : NanoDetWandbLogger × ℕ),
      s.id_to_name = none → runTableCalls s calls = some r → r.2 ≤ 1) ∧
    (∀ (s : NanoDetWandbLogger) (cfg : Cfg)
        (results : List (ℕ × List (ℕ × List Det))) (out : EvalTableOut),
      s.id_to_name = none →
      NanoDetWandbLogger.log_eval_table s cfg results = some out →
      out.state.id_to_name = (if 0 < min results.length s.num_eval_samples
        then some (datasetIdMap cfg) else none) ∧
      out.providerCalls = (if 0 < min results.length s.num_eval_samples
        then 1 else 0)) :=
  ⟨fun m calls s r hm h => runTableCalls_cached m calls s r hm h,
   fun calls s r hm h => runTableCalls_fresh calls s r hm h,
   fun s cfg results out hm h =>
     ⟨(log_eval_table_fresh s cfg results out hm h).2.1,
      (log_eval_table_fresh s cfg results out hm h).2.2⟩⟩

/-- Witness for C9: a fresh sink runs one table call selecting one
sample; the whole sequence makes exactly one provider call, within the
proven bound. -/
theorem id_to_name_cache_built_once_witness :
    (⟨16, none, ""⟩ : NanoDetWandbLogger).id_to_name = none ∧
    ((⟨16, some [(0, "f")], ""⟩ : NanoDetWandbLogger), 1).2 ≤ 1 :=
  ⟨rfl,
   id_to_name_cache_built_once.2.1
     [(⟨[⟨0, "f"⟩], "val", ["cat"]⟩, [(0, [])])] ⟨16, none, ""⟩
     (⟨16, some [(0, "f")], ""⟩, 1) rfl (by rfl)⟩
